import Mathlib

/-!
Verification development for the Gestionale-Tornei scheduling engine.

The definitions below are a shallow embedding of the repository's
availability/booking code:

* the match data model and the booking operations of
  `components/TournamentView.tsx` (`getAllBookedSlotIds`,
  `saveMatchBooking`, `handleConfirmBookSlot`, `saveRescheduleMatch`,
  `deleteMatchResult`, `saveMatchResult`);
* the slot-registry normalisation of `components/AvailabilityTab.tsx`
  (`normalizeSlotIdRaw`, `parseStartToMsRaw`, the `slotMap` dedupe,
  `bookedSlotIds`, `futureSlots`, `toggleMySlot` and the gated
  interest button);
* the chunked queries of `services/availabilityService.ts`
  (`getDateUnavailabilitiesForPlayers`);
* the per-player counters of `components/AdminMatchCounts.tsx`;
* the slot deletion of the time-slot admin component
  (`handleDeleteSlot`).

External JavaScript runtime primitives (`Date.parse`,
`Date.prototype.toISOString`, the local calendar-date projection and
`Number`) are modelled as explicit function parameters, so every theorem
quantifies over their behaviour; concrete instances are supplied only in
closed witness/counterexample statements.

JavaScript `null`/`undefined` is modelled with `Option`; JavaScript
string truthiness (`null`, `undefined` and `""` are falsy) is modelled
by `truthyStr`.
-/

/-- A match record as read by the scheduling components
(`id`, `player1Id`, `player2Id`, `status`, `score1`, `score2`,
`scheduledTime`, `slotId`, `location`, `field`). -/
structure GMatch where
  id : String
  player1Id : String
  player2Id : String
  status : String
  score1 : Option Int
  score2 : Option Int
  scheduledTime : Option String
  slotId : Option String
  location : Option String
  field : Option String
deriving DecidableEq

/-- A global/tournament time slot as read by `TournamentView.tsx`
(`id`, `start`, optional `location` and `field`). -/
structure GTimeSlot where
  id : String
  start : String
  location : Option String
  field : Option String
deriving DecidableEq

/-- A group: `id`, `playerIds`, `matches` (the source field `matches`
is renamed `gmatches` because `matches` is a reserved word in Lean). -/
structure GGroup where
  id : String
  playerIds : List String
  gmatches : List GMatch
deriving DecidableEq

/-- A tournament as read by `TournamentView.tsx`: `id` and `groups`. -/
structure GTournament where
  id : String
  groups : List GGroup
deriving DecidableEq

/-- An event: `id`, `tournaments` and the optional `globalTimeSlots`
array (`Array.isArray(event.globalTimeSlots) ? ... : []`). -/
structure GEvent where
  id : String
  tournaments : List GTournament
  globalTimeSlots : Option (List GTimeSlot)
deriving DecidableEq

/-- JavaScript truthiness of a nullable string: `null`/`undefined` and
`""` are falsy, every other string is truthy. -/
def truthyStr : Option String → Bool
  | some s => !(s == "")
  | none => false

/-- All matches of an event, in tournament/group order. -/
def eventMatches (e : GEvent) : List GMatch :=
  e.tournaments.flatMap fun t => t.groups.flatMap fun g => g.gmatches

/-- `getAllBookedSlotIds` from `TournamentView.tsx`: the slot ids of
every match across the event that has a truthy `slotId` and status
`scheduled` or `completed` (the Booking Index). -/
def getAllBookedSlotIds (e : GEvent) : List String :=
  e.tournaments.flatMap fun t =>
    t.groups.flatMap fun g =>
      (g.gmatches.filter fun m =>
        truthyStr m.slotId && (m.status == "scheduled" || m.status == "completed")).map
        fun m => m.slotId.getD ""

/-- The shared write pattern of every booking/result handler in
`TournamentView.tsx`: replace match `mid` inside group `gid` of the
given tournament's groups, then replace that tournament (matched by id)
inside the event's tournament list. -/
def commitMatchUpdate (e : GEvent) (tr : GTournament) (gid mid : String)
    (upd : GMatch) : GEvent :=
  { e with tournaments := e.tournaments.map fun t =>
      if t.id == tr.id then
        { t with groups := tr.groups.map fun g =>
            if g.id == gid then
              { g with gmatches :=
                  g.gmatches.map fun mm => if mm.id == mid then upd else mm }
            else g }
      else t }

/-- Outcome of a `TournamentView.tsx` handler: `skipped` models the
early `return` for a missing group/match, `err` models
`setBookingError(msg)` without a write, `threw` models a thrown
`RangeError` from `toISOString()` on an invalid date, `ok` is a
successful optimistic update + `updateDoc` write. -/
inductive BookOutcome where
  | skipped : BookOutcome
  | err : String → BookOutcome
  | threw : BookOutcome
  | ok : GEvent → BookOutcome
deriving DecidableEq

/-- `saveMatchBooking` from `TournamentView.tsx`.  `dp` models
`Date.parse`/`new Date(s).getTime()` (`none` = `NaN`); `iso` models
`Date.prototype.toISOString` on a valid epoch-ms value. -/
def saveMatchBooking (dp : String → Option Int) (iso : Int → String)
    (e : GEvent) (tr : GTournament) (gid : String) (m : GMatch)
    (selectedSlotId : String) : BookOutcome :=
  match tr.groups.find? (fun g => g.id == gid) with
  | none => .skipped
  | some _ =>
    if selectedSlotId == "" then .err "Seleziona uno slot orario."
    else if (getAllBookedSlotIds e).contains selectedSlotId then
      .err "Slot già prenotato, scegli un altro slot."
    else
      match (e.globalTimeSlots.getD []).find? (fun s => s.id == selectedSlotId) with
      | none => .err "Slot non trovato tra quelli globali."
      | some timeSlot =>
        if timeSlot.start == "" then .err "Invalid data - campo orario non valido."
        else
          match dp timeSlot.start with
          | none => .err "Invalid data - campo orario non valido."
          | some ms =>
            .ok (commitMatchUpdate e tr gid m.id
              { m with
                status := "scheduled"
                scheduledTime := some (iso ms)
                slotId := some timeSlot.id
                location := some (timeSlot.location.getD "")
                field := some (timeSlot.field.getD (timeSlot.location.getD "")) })

/-- `handleConfirmBookSlot` from `TournamentView.tsx` (the booking path
of the "Slot Disponibili" tab): looks the match up by id in the
selected group and writes the booking directly; note that, unlike
`saveMatchBooking`, it performs no check against
`getAllBookedSlotIds`.  An unparseable `slotToBook.start` makes
`new Date(...).toISOString()` throw (`threw`). -/
def handleConfirmBookSlot (dp : String → Option Int) (iso : Int → String)
    (e : GEvent) (tr : GTournament) (gid : String) (matchId : String)
    (slotToBook : GTimeSlot) : BookOutcome :=
  match tr.groups.find? (fun g => g.id == gid) with
  | none => .skipped
  | some g =>
    match g.gmatches.find? (fun mm => mm.id == matchId) with
    | none => .skipped
    | some m =>
      match dp slotToBook.start with
      | none => .threw
      | some ms =>
        .ok (commitMatchUpdate e tr gid m.id
          { m with
            status := "scheduled"
            scheduledTime := some (iso ms)
            location := some (slotToBook.location.getD "")
            field := some (slotToBook.field.getD (slotToBook.location.getD ""))
            slotId := some slotToBook.id })

/-- `saveRescheduleMatch` from `TournamentView.tsx`.  The booked-slot
check uses the full `getAllBookedSlotIds` set (the match's own current
slot is not excluded).  When the chosen id is not found among the
global slots the handler still proceeds, writing empty-string
scheduling fields; when the found slot's start is truthy but
unparseable, `toISOString()` throws. -/
def saveRescheduleMatch (dp : String → Option Int) (iso : Int → String)
    (e : GEvent) (tr : GTournament) (gid : String) (m : GMatch)
    (rescheduleSlotId : String) : BookOutcome :=
  match tr.groups.find? (fun g => g.id == gid) with
  | none => .skipped
  | some _ =>
    if rescheduleSlotId == "" then .err "Seleziona uno slot orario."
    else if (getAllBookedSlotIds e).contains rescheduleSlotId then
      .err "Slot già prenotato da un\x27altra partita."
    else
      match (e.globalTimeSlots.getD []).find? (fun s => s.id == rescheduleSlotId) with
      | none =>
        .ok (commitMatchUpdate e tr gid m.id
          { m with scheduledTime := some "", slotId := some "",
                   location := some "", field := some "" })
      | some timeSlot =>
        if timeSlot.start == "" then
          .ok (commitMatchUpdate e tr gid m.id
            { m with scheduledTime := some "", slotId := some timeSlot.id,
                     location := some (timeSlot.location.getD ""),
                     field := some (timeSlot.field.getD (timeSlot.location.getD "")) })
        else
          match dp timeSlot.start with
          | none => .threw
          | some ms =>
            .ok (commitMatchUpdate e tr gid m.id
              { m with scheduledTime := some (iso ms), slotId := some timeSlot.id,
                       location := some (timeSlot.location.getD ""),
                       field := some (timeSlot.field.getD (timeSlot.location.getD "")) })

/-- `deleteMatchResult` from `TournamentView.tsx`: spreads the match
with `score1: null, score2: null, status: "pending"` — nothing else is
touched. -/
def deleteMatchResult (e : GEvent) (tr : GTournament) (gid : String)
    (m : GMatch) : BookOutcome :=
  match tr.groups.find? (fun g => g.id == gid) with
  | none => .skipped
  | some _ =>
    .ok (commitMatchUpdate e tr gid m.id
      { m with score1 := none, score2 := none, status := "pending" })

/-- `saveMatchResult` from `TournamentView.tsx`: spreads the match with
`score1: Number(score1), score2: Number(score2), status: "completed"`.
`nm` models the JavaScript `Number` conversion on the entered strings
(`none` = `NaN`).  No validation of the scores is performed. -/
def saveMatchResult (nm : String → Option Int) (e : GEvent) (tr : GTournament)
    (gid : String) (m : GMatch) (score1 score2 : String) : BookOutcome :=
  match tr.groups.find? (fun g => g.id == gid) with
  | none => .skipped
  | some _ =>
    .ok (commitMatchUpdate e tr gid m.id
      { m with score1 := nm score1, score2 := nm score2, status := "completed" })

/-- Decimal parsing of a character list: `some` of the value when the
list is a non-empty all-digit sequence, `none` otherwise. -/
def natOfDigits (cs : List Char) : Option Nat :=
  if cs ≠ [] ∧ cs.all (·.isDigit) then
    some (cs.foldl (fun n c => n * 10 + (c.toNat - '0'.toNat)) 0)
  else none

/-- A concrete model of the external JavaScript `Number` conversion on
integer-literal strings: the empty string converts to `0`, optionally
minus-signed decimal strings to the corresponding integer, anything
else to `NaN` (`none`). -/
def jsNumberModel (s : String) : Option Int :=
  match s.data with
  | [] => some 0
  | '-' :: rest => (natOfDigits rest).map (fun n => -(n : Int))
  | cs => (natOfDigits cs).map (fun n => (n : Int))

/-- Modelled from the spec: "scores not parseable as non-negative
integers" — a string is a valid non-negative integer score iff it is a
non-empty sequence of decimal digits. -/
def isNonNegIntString (s : String) : Bool :=
  (natOfDigits s.data).isSome

/-- C1 concrete data: a pending match in group `g1`. -/
def mPendC1 : GMatch :=
  ⟨"m1", "A", "B", "pending", none, none, none, none, some "", some ""⟩

/-- C1 concrete data: a scheduled match in group `g2` already holding
slot `S1`. -/
def mSchedC1 : GMatch :=
  ⟨"m2", "C", "D", "scheduled", none, none, some "2030-01-01T18:00:00.000Z",
   some "S1", some "Campo 1", some "Campo 1"⟩

/-- C1 concrete data: the shared global slot `S1`. -/
def slotS1C1 : GTimeSlot :=
  ⟨"S1", "2030-01-01T18:00:00.000Z", some "Campo 1", none⟩

/-- C1 concrete data: one tournament with two groups. -/
def trC1 : GTournament :=
  ⟨"t1", [⟨"g1", ["A", "B"], [mPendC1]⟩, ⟨"g2", ["C", "D"], [mSchedC1]⟩]⟩

/-- C1 concrete data: the event. -/
def evC1 : GEvent := ⟨"e1", [trC1], some [slotS1C1]⟩

/-- C1 concrete data: a `Date.parse` instance agreeing with JavaScript
on the one timestamp used (2030-01-01T18:00:00Z = 1893520800000 ms). -/
def dpC1 : String → Option Int := fun s =>
  if s == "2030-01-01T18:00:00.000Z" then some 1893520800000 else none

/-- C1 concrete data: a `toISOString` instance matching `dpC1`. -/
def isoC1 : Int → String := fun n =>
  if n == 1893520800000 then "2030-01-01T18:00:00.000Z" else ""

/-- C1 concrete data: the state produced by booking the pending match
into the already-claimed slot through the slot tab. -/
def evC1after : GEvent :=
  commitMatchUpdate evC1 trC1 "g1" "m1"
    { mPendC1 with
      status := "scheduled"
      scheduledTime := some "2030-01-01T18:00:00.000Z"
      location := some "Campo 1"
      field := some "Campo 1"
      slotId := some "S1" }

/-- C3 concrete data: a completed match holding slot `S1` with a result
entered. -/
def mComplC3 : GMatch :=
  ⟨"m1", "A", "B", "completed", some 3, some 1, some "2030-01-01T18:00:00.000Z",
   some "S1", some "Campo 1", some "Campo 1"⟩

/-- C3 concrete data: one tournament with a single group. -/
def trC3 : GTournament := ⟨"t1", [⟨"g1", ["A", "B"], [mComplC3]⟩]⟩

/-- C3 concrete data: the event. -/
def evC3 : GEvent := ⟨"e1", [trC3], some []⟩

/-- C3 concrete data: the state after deleting the result of `m1`. -/
def evC3after : GEvent :=
  commitMatchUpdate evC3 trC3 "g1" "m1"
    { mComplC3 with score1 := none, score2 := none, status := "pending" }

/-- C4 concrete data: a scheduled match currently holding slot `S1`. -/
def mC4 : GMatch :=
  ⟨"m1", "A", "B", "scheduled", none, none, some "2030-01-01T18:00:00.000Z",
   some "S1", some "Campo 1", some "Campo 1"⟩

/-- C4 concrete data: one tournament with a single group. -/
def trC4 : GTournament := ⟨"t1", [⟨"g1", ["A", "B"], [mC4]⟩]⟩

/-- C4 concrete data: the event, with slot `S1` among the global
slots. -/
def evC4 : GEvent :=
  ⟨"e1", [trC4], some [⟨"S1", "2030-01-01T18:00:00.000Z", some "Campo 1", none⟩]⟩

/-- C4 concrete data: a `Date.parse` instance for the timestamp used. -/
def dpC4 : String → Option Int := fun s =>
  if s == "2030-01-01T18:00:00.000Z" then some 1893520800000 else none

/-- C4 concrete data: a `toISOString` instance matching `dpC4`. -/
def isoC4 : Int → String := fun n =>
  if n == 1893520800000 then "2030-01-01T18:00:00.000Z" else ""

/-- C5 concrete data: a scheduled match whose result is being
entered. -/
def mC5 : GMatch :=
  ⟨"m1", "A", "B", "scheduled", none, none, some "2030-01-01T18:00:00.000Z",
   some "S1", some "Campo 1", some "Campo 1"⟩

/-- C5 concrete data: one tournament with a single group. -/
def trC5 : GTournament := ⟨"t1", [⟨"g1", ["A", "B"], [mC5]⟩]⟩

/-- C5 concrete data: the event. -/
def evC5 : GEvent := ⟨"e1", [trC5], some []⟩

/-- C5 concrete data: the state after entering the (invalid) scores
"-3" and "1". -/
def evC5after : GEvent :=
  commitMatchUpdate evC5 trC5 "g1" "m1"
    { mC5 with score1 := some (-3), score2 := some 1, status := "completed" }

/-- A time slot of the admin `TimeSlots` component (the component of
`handleAddSlot`/`handleDeleteSlot`): `id`, `time`, `location`,
`matchId`. -/
structure ATimeSlot where
  id : String
  time : String
  location : String
  matchId : Option String
deriving DecidableEq

/-- A tournament as read by the admin `TimeSlots` component: `id`,
`timeSlots`, `groups`. -/
structure ATournament where
  id : String
  timeSlots : List ATimeSlot
  groups : List GGroup
deriving DecidableEq

/-- An event as read by the admin `TimeSlots` component. -/
structure AEvent where
  id : String
  tournaments : List ATournament
deriving DecidableEq

/-- The per-match update of `handleDeleteSlot`:
`(slotToDelete && m.scheduledTime === slotToDelete.time) ? { ...m,
status: 'pending', scheduledTime: undefined, location: undefined } : m`
for a found `slotToDelete` of time `tm`. -/
def resetIfScheduledAt (tm : String) (m : GMatch) : GMatch :=
  if m.scheduledTime == some tm then
    { m with status := "pending", scheduledTime := none, location := none }
  else m

/-- The per-tournament body of `handleDeleteSlot`: look the slot up by
id, drop every slot with that id from `timeSlots`, and map the groups'
matches through the conditional reset (the condition is `false` when
the slot was not found). -/
def deleteSlotInTournament (t : ATournament) (slotId : String) : ATournament :=
  match t.timeSlots.find? (fun ts => ts.id == slotId) with
  | some slotToDelete =>
    { t with
      timeSlots := t.timeSlots.filter (fun ts => !(ts.id == slotId))
      groups := t.groups.map fun g =>
        { g with gmatches := g.gmatches.map (resetIfScheduledAt slotToDelete.time) } }
  | none =>
    { t with
      timeSlots := t.timeSlots.filter (fun ts => !(ts.id == slotId))
      groups := t.groups.map fun g =>
        { g with gmatches := g.gmatches.map (fun m => m) } }

/-- `handleDeleteSlot` from the admin `TimeSlots` component: tournaments
other than the current one are returned unchanged. -/
def handleDeleteSlot (e : AEvent) (tournamentId slotId : String) : AEvent :=
  { e with tournaments := e.tournaments.map fun t =>
      if t.id == tournamentId then deleteSlotInTournament t slotId else t }

/-- The realtime per-player maps held by `AvailabilityTab.tsx`:
`slotPrefMap` (player id → set of preferred slot ids) and
`dateUnavailMap` (player id → set of unavailable `YYYY-MM-DD` keys),
each modelled as an association list of lists. -/
structure AvailState where
  slotPrefMap : List (String × List String)
  dateUnavailMap : List (String × List String)
deriving DecidableEq

/-- Lookup of a player's set in one of the `AvailabilityTab` maps
(`map[pid] ?? new Set()`). -/
def lookupSet (mp : List (String × List String)) (pid : String) : List String :=
  match mp.find? (fun p => p.1 == pid) with
  | some p => p.2
  | none => []

/-- `isParticipantUnavailableOn` from `AvailabilityTab.tsx`:
`!!(dateUnavailMap[pId]?.has(dateKey))`. -/
def isParticipantUnavailableOn (st : AvailState) (pid dateKey : String) : Bool :=
  (lookupSet st.dateUnavailMap pid).contains dateKey

/-- Document id of a `slot_preferences` record
(`availabilityService.ts`): `${playerId}_${slotId}`. -/
def docIdSlotPref (playerId slotId : String) : String :=
  playerId ++ "_" ++ slotId

/-- Upsert into a keyed document store (`setDoc(ref, ..., {merge:
true})`): replaces the value at an existing key, otherwise appends. -/
def storeSet : List (String × Bool) → String → Bool → List (String × Bool)
  | [], k, v => [(k, v)]
  | (a, b) :: rest, k, v =>
    if a == k then (a, v) :: rest else (a, b) :: storeSet rest k v

/-- `setSlotPreference` from `availabilityService.ts`: upsert of the
`slot_preferences` document `${playerId}_${slotId}` with the given
`isPreferred` value. -/
def setSlotPreference (store : List (String × Bool)) (playerId slotId : String)
    (isPreferred : Bool) : List (String × Bool) :=
  storeSet store (docIdSlotPref playerId slotId) isPreferred

/-- `removeSlotPreference` from `availabilityService.ts`: `deleteDoc`
of the `slot_preferences` document `${playerId}_${slotId}`. -/
def removeSlotPreference (store : List (String × Bool)) (playerId slotId : String) :
    List (String × Bool) :=
  store.filter (fun p => !(p.1 == docIdSlotPref playerId slotId))

/-- `toggleMySlot` from `AvailabilityTab.tsx`: if the logged-in player
has no recorded preference for the slot, write one with
`isPreferred = true`, otherwise delete the preference document. -/
def toggleMySlot (st : AvailState) (store : List (String × Bool))
    (loggedInPlayerId slotId : String) : List (String × Bool) :=
  if !((lookupSet st.slotPrefMap loggedInPlayerId).contains slotId) then
    setSlotPreference store loggedInPlayerId slotId true
  else
    removeSlotPreference store loggedInPlayerId slotId

/-- The "Segna: Voglio giocare" button of `AvailabilityTab.tsx`: the
button is rendered only for a logged-in player, its click handler is
`toggleMySlot(slotId)`, and it carries `disabled={myDateUnavail}` where
`myDateUnavail = isParticipantUnavailableOn(loggedInPlayerId,
formatDateKeyFromIso(slot.start))`; a disabled button never fires the
handler, so the write is skipped.  `dateKeyOf` models the external
`formatDateKeyFromIso` calendar-date projection. -/
def slotInterestClick (dateKeyOf : String → String) (st : AvailState)
    (store : List (String × Bool)) (loggedInPlayerId : Option String)
    (slotId slotStartIso : String) : List (String × Bool) :=
  match loggedInPlayerId with
  | none => store
  | some pid =>
    if isParticipantUnavailableOn st pid (dateKeyOf slotStartIso) then store
    else toggleMySlot st store pid slotId

/-- `isInterested(p, slot)` per the data model: a `slot_preferences`
record for `${p}_${slot}` exists with `isPreferred = true`. -/
def isInterested (store : List (String × Bool)) (playerId slotId : String) : Bool :=
  match store.find? (fun p => p.1 == docIdSlotPref playerId slotId) with
  | some p => p.2
  | none => false

/-- C2 concrete data: player `P` is marked unavailable on
2025-06-01. -/
def stC2 : AvailState := ⟨[], [("P", ["2025-06-01"])]⟩

/-- C2 concrete data: a calendar-date projection instance for the one
timestamp used. -/
def dateKeyC2 : String → String := fun s =>
  if s == "2025-06-01T18:00:00.000Z" then "2025-06-01" else ""

/-- C10 concrete data: the admin time slot `S1`. -/
def sdC10 : ATimeSlot := ⟨"S1", "2030-01-01T18:00:00.000Z", "Campo 1", none⟩

/-- C10 concrete data: a tournament holding slot `S1` and one group
with a match scheduled at the slot's time (plus one untouched
match). -/
def tC10 : ATournament :=
  ⟨"t1", [sdC10],
   [⟨"g1", ["A", "B"],
     [⟨"m1", "A", "B", "scheduled", none, none, some "2030-01-01T18:00:00.000Z",
       some "S1", some "Campo 1", some "Campo 1"⟩,
      ⟨"m2", "A", "B", "pending", none, none, none, none, none, none⟩]⟩]⟩

/-- Increment of a per-player counter map (`map.set(p, (map.get(p) ||
0) + 1)` in `AdminMatchCounts.tsx`). -/
def bump : List (String × Nat) → String → List (String × Nat)
  | [], k => [(k, 1)]
  | (a, n) :: rest, k =>
    if a == k then (a, n + 1) :: rest else (a, n) :: bump rest k

/-- Read of a per-player counter map (`map.get(p) || 0`). -/
def lookupCount : List (String × Nat) → String → Nat
  | [], _ => 0
  | (a, n) :: rest, k => if a == k then n else lookupCount rest k

/-- `isCompleted` from `AdminMatchCounts.tsx`:
`status === "completed" || status === "finished"`. -/
def isCompletedStatus (m : GMatch) : Bool :=
  m.status == "completed" || m.status == "finished"

/-- The per-match body of the `perPlayerExpected` loop of
`AdminMatchCounts.tsx`: `if (p1) inc(p1); if (p2) inc(p2)`. -/
def expectedStep (mp : List (String × Nat)) (m : GMatch) : List (String × Nat) :=
  let mp1 := if m.player1Id == "" then mp else bump mp m.player1Id
  if m.player2Id == "" then mp1 else bump mp1 m.player2Id

/-- The per-match body of the `perPlayerPlayed` loop of
`AdminMatchCounts.tsx`: each side is counted as played when the player
id is truthy, the player has a placement (`placement.has`), and the
match is completed.  (The `scheduled` else-branch and its
`isBooked` heuristic are not modelled: the claim under verification
does not concern them.) -/
def playedStep (placed : String → Bool) (mp : List (String × Nat)) (m : GMatch) :
    List (String × Nat) :=
  let mp1 :=
    if !(m.player1Id == "") && placed m.player1Id && isCompletedStatus m then
      bump mp m.player1Id
    else mp
  if !(m.player2Id == "") && placed m.player2Id && isCompletedStatus m then
    bump mp1 m.player2Id
  else mp1

/-- `perPlayerExpected` from `AdminMatchCounts.tsx`. -/
def perPlayerExpected (ms : List GMatch) : List (String × Nat) :=
  ms.foldl expectedStep []

/-- `perPlayerPlayed` from `AdminMatchCounts.tsx`. -/
def perPlayerPlayed (placed : String → Bool) (ms : List GMatch) :
    List (String × Nat) :=
  ms.foldl (playedStep placed) []

/-- The `expected` value of a player's row
(`perPlayerExpected.get(pid) || 0`). -/
def expectedOf (ms : List GMatch) (pid : String) : Nat :=
  lookupCount (perPlayerExpected ms) pid

/-- The `played` value of a player's row
(`perPlayerPlayed.get(pid) || 0`). -/
def playedOf (placed : String → Bool) (ms : List GMatch) (pid : String) : Nat :=
  lookupCount (perPlayerPlayed placed ms) pid

/-- The `remaining` value of a player's row:
`Math.max(0, expected - played)` over JavaScript numbers. -/
def remainingOf (placed : String → Bool) (ms : List GMatch) (pid : String) : Int :=
  max 0 ((expectedOf ms pid : Int) - (playedOf placed ms pid : Int))

/-- Modelled from the spec: "`expected` = count of matches in the
group where the player is `player1Id` or `player2Id`" — the number of
distinct group matches mentioning the player on either side. -/
def specExpectedCount (ms : List GMatch) (pid : String) : Nat :=
  (ms.filter (fun m => m.player1Id == pid || m.player2Id == pid)).length

/-- C9 concrete data: a single "self-match" listing the same player on
both sides. -/
def msC9 : List GMatch :=
  [⟨"m1", "A", "A", "pending", none, none, none, none, none, none⟩]

/-- C9 concrete data: a two-match group snapshot for the witness (one
completed, one pending). -/
def msC9w : List GMatch :=
  [⟨"m1", "A", "B", "completed", some 2, some 0, none, some "S1", none, none⟩,
   ⟨"m2", "A", "C", "pending", none, none, none, none, none, none⟩]

/-- C9 concrete data: every player of the witness snapshot is placed in
a group. -/
def placedC9 : String → Bool := fun pid =>
  pid == "A" || pid == "B" || pid == "C"

/-- A `date_unavailabilities` record as returned by
`availabilityService.ts` (`playerId`, `date` in `YYYY-MM-DD`). -/
structure DateUnav where
  playerId : String
  date : String
deriving DecidableEq

/-- Fuel-indexed chunking of a list into runs of at most 10 elements,
mirroring the `for (let i = 0; i < playerIds.length; i += CHUNK)` loop
with `CHUNK = 10`; the fuel (instantiated with the list length) only
serves structural termination. -/
def chunksTenFuel {α : Type} : Nat → List α → List (List α)
  | _, [] => []
  | 0, _ :: _ => []
  | fuel + 1, x :: xs => ((x :: xs).take 10) :: chunksTenFuel fuel ((x :: xs).drop 10)

/-- The chunks of at most 10 player ids queried by
`getDateUnavailabilitiesForPlayers`. -/
def chunksTen {α : Type} (l : List α) : List (List α) :=
  chunksTenFuel l.length l

/-- `getDateUnavailabilitiesForPlayers` from `availabilityService.ts`:
issues one backing query per chunk of at most 10 player ids (the
Firestore `where("playerId", "in", chunk)` with the optional date
range) and appends the snapshots' documents in chunk order.  `store`
models the backing query engine; an empty id list issues no query and
returns `[]`. -/
def getDateUnavailabilitiesForPlayers
    (store : List String → Option (String × String) → List DateUnav)
    (playerIds : List String) (range : Option (String × String)) : List DateUnav :=
  (chunksTen playerIds).flatMap fun chunk => store chunk range

/-- Lexicographic comparison of character lists (the order of the
backing store's `orderBy("date", "asc")`). -/
def charListLe : List Char → List Char → Bool
  | [], _ => true
  | _ :: _, [] => false
  | a :: as, b :: bs => if a = b then charListLe as bs else decide (a < b)

/-- Lexicographic comparison of `YYYY-MM-DD` date strings. -/
def dateLe (a b : String) : Bool := charListLe a.data b.data

/-- Modelled from the spec: a "correctly-ordered result set" is one
whose records are in ascending date order. -/
def sortedByDate : List DateUnav → Bool
  | [] => true
  | [_] => true
  | a :: b :: rest => dateLe a.date b.date && sortedByDate (b :: rest)

/-- C8 concrete data: eleven player ids (two chunks: 10 + 1). -/
def idsC8 : List String :=
  ["p01", "p02", "p03", "p04", "p05", "p06", "p07", "p08", "p09", "p10", "p11"]

/-- C8 concrete data: the stored records — `p01` has a later date than
`p11`. -/
def dbC8 : List DateUnav :=
  [⟨"p01", "2025-06-02"⟩, ⟨"p11", "2025-06-01"⟩]

/-- C8 concrete data: a backing store that answers each query with
exactly the matching records of `dbC8` (each single-chunk answer is
date-sorted). -/
def storeC8 : List String → Option (String × String) → List DateUnav :=
  fun chunk _ => dbC8.filter (fun d => chunk.contains d.playerId)

/-- C8 concrete data: the queried date range. -/
def rngC8 : Option (String × String) := some ("2025-01-01", "2025-12-31")

/-- A raw start/time value carried by a slot record: a JavaScript
number (epoch seconds or milliseconds) or a string. -/
inductive StartVal where
  | num : Int → StartVal
  | str : String → StartVal
deriving DecidableEq

/-- A raw slot record as consumed by the Slot Registry helpers of
`AvailabilityTab.tsx`: the id may live under `id`, `slotId` or
`timeSlotId`, the start under `start`, `time`, `datetime` or `date`.
`none` models an absent/null field. -/
structure RawSlot where
  id : Option String
  slotId : Option String
  timeSlotId : Option String
  start : Option StartVal
  time : Option StartVal
  datetime : Option StartVal
  date : Option StartVal
  location : Option String
  field : Option String
deriving DecidableEq

/-- JavaScript `String(v)` on a raw start value. -/
def jsStringOfStart : StartVal → String
  | .num n => toString n
  | .str s => s

/-- The start-field nullish chain
`s.start ?? s.time ?? s.datetime ?? s.date`. -/
def startRaw (s : RawSlot) : Option StartVal :=
  ((s.start.orElse fun _ => s.time).orElse fun _ => s.datetime).orElse fun _ => s.date

/-- `normalizeSlotIdRaw` from `AvailabilityTab.tsx`: the first truthy
id-like field, else the composite key `start|location|field` (with the
nullish start chain defaulting to `""`). -/
def normalizeSlotIdRaw (s : RawSlot) : String :=
  if truthyStr s.id then s.id.getD ""
  else if truthyStr s.slotId then s.slotId.getD ""
  else if truthyStr s.timeSlotId then s.timeSlotId.getD ""
  else
    (match startRaw s with
     | some v => jsStringOfStart v
     | none => "")
      ++ "|" ++ s.location.getD "" ++ "|" ++ s.field.getD ""

/-- Replace the first space of a character list by `T`
(JavaScript `str.replace(" ", "T")` replaces only the first
occurrence). -/
def replFirstSpaceT : List Char → List Char
  | [] => []
  | c :: rest => if c = ' ' then 'T' :: rest else c :: replFirstSpaceT rest

/-- JavaScript `str.replace(" ", "T")`. -/
def jsReplaceSpaceT (s : String) : String :=
  ⟨replFirstSpaceT s.data⟩

/-- `parseStartToMsRaw` from `AvailabilityTab.tsx`.  `dp` models
`Date.parse` and `np` the numeric-string branch `Number(str)` (`none` =
`NaN`).  A numeric value below `1e12` is read as epoch seconds and
scaled to milliseconds.  When no start-like field is present the
JavaScript code stringifies the record itself, which parses neither as
a date nor as a number, so the result is `NaN` (`none`). -/
def parseStartToMsRaw (dp np : String → Option Int) (s : RawSlot) : Option Int :=
  match startRaw s with
  | none => none
  | some (.num n) => some (if n < 1000000000000 then n * 1000 else n)
  | some (.str st) =>
    match dp st with
    | some t => some t
    | none =>
      match dp (jsReplaceSpaceT st) with
      | some t => some t
      | none =>
        match np st with
        | some n => some (if n < 1000000000000 then n * 1000 else n)
        | none => none

/-- An entry of the deduplicating `slotMap`: the spread
`{ ...s, id: sid, _startMs: startMs }`. -/
structure NormSlot where
  raw : RawSlot
  id : String
  startMs : Option Int
deriving DecidableEq

/-- Lookup in the insertion-ordered map (`Map.get`). -/
def assocFind : List (String × NormSlot) → String → Option NormSlot
  | [], _ => none
  | (a, v) :: rest, k => if a == k then some v else assocFind rest k

/-- Insertion-ordered update (`Map.set`): replaces the value at an
existing key in place, otherwise appends the binding. -/
def assocSet : List (String × NormSlot) → String → NormSlot → List (String × NormSlot)
  | [], k, v => [(k, v)]
  | (a, w) :: rest, k, v =>
    if a == k then (a, v) :: rest else (a, w) :: assocSet rest k v

/-- The duplicate-resolution core of the `slotMap` fold of
`AvailabilityTab.tsx`, on the new slot's parsed start and the stored
entry's `_startMs`: replace when the stored start is `NaN` and the new
one parses (`isNaN(exStart) && !isNaN(startMs)`), or when the new start
parses strictly earlier (`!isNaN(startMs) && startMs < exStart`);
otherwise keep the stored entry. -/
def slotMapResolve (m : List (String × NormSlot)) (s : RawSlot) :
    Option Int → Option Int → List (String × NormSlot)
  | some sv, none =>
    assocSet m (normalizeSlotIdRaw s) ⟨s, normalizeSlotIdRaw s, some sv⟩
  | some sv, some exv =>
    if sv < exv then
      assocSet m (normalizeSlotIdRaw s) ⟨s, normalizeSlotIdRaw s, some sv⟩
    else m
  | none, _ => m

/-- The lookup half of the `slotMap` fold body: an unseen id is
inserted with its parsed start, a seen one goes through
`slotMapResolve`. -/
def slotMapUpdate (dp np : String → Option Int) (m : List (String × NormSlot))
    (s : RawSlot) : Option NormSlot → List (String × NormSlot)
  | none =>
    assocSet m (normalizeSlotIdRaw s)
      ⟨s, normalizeSlotIdRaw s, parseStartToMsRaw dp np s⟩
  | some existing =>
    slotMapResolve m s (parseStartToMsRaw dp np s) existing.startMs

/-- The per-slot body of the `slotMap` fold of `AvailabilityTab.tsx`:
skip empty normalized ids, otherwise update the map at the normalized
id. -/
def slotMapStep (dp np : String → Option Int) (m : List (String × NormSlot))
    (s : RawSlot) : List (String × NormSlot) :=
  if normalizeSlotIdRaw s == "" then m
  else slotMapUpdate dp np m s (assocFind m (normalizeSlotIdRaw s))

/-- The `slotMap` of `AvailabilityTab.tsx`: fold of the raw slot lists
(tournament-scoped ++ event-global) into the deduplicated map. -/
def slotMap (dp np : String → Option Int) (rawSlots : List RawSlot) :
    List (String × NormSlot) :=
  rawSlots.foldl (slotMapStep dp np) []

/-- `allSlots` of `AvailabilityTab.tsx`:
`Array.from(slotMap.values())`. -/
def allSlotsOf (dp np : String → Option Int) (rawSlots : List RawSlot) :
    List NormSlot :=
  (slotMap dp np rawSlots).map Prod.snd

/-- A raw record `{ start: st }` as built inside `bookedSlotIds`. -/
def rawOfStart (st : String) : RawSlot :=
  ⟨none, none, none, some (.str st), none, none, none, none, none⟩

/-- `bookedSlotIds` from `AvailabilityTab.tsx`: for every match of the
event, its truthy `slotId`, plus — for a truthy `scheduledTime` — the
raw `scheduledTime` string and, when parseable, its epoch-milliseconds
rendering. -/
def bookedSlotIds (dp np : String → Option Int) (e : GEvent) : List String :=
  e.tournaments.flatMap fun t =>
    t.groups.flatMap fun g =>
      g.gmatches.flatMap fun m =>
        (match m.slotId with
         | some s => if s == "" then [] else [s]
         | none => []) ++
        (match m.scheduledTime with
         | some st =>
           if st == "" then []
           else
             st :: (match parseStartToMsRaw dp np (rawOfStart st) with
                    | some msv => [toString msv]
                    | none => [])
         | none => [])

/-- The filter predicate of `futureSlots` in `AvailabilityTab.tsx`:
keep a slot iff its `_startMs` is a truthy (non-zero), parseable value
strictly after `nowMs`, its id is truthy, and neither the id nor the
epoch-ms nor the ISO rendering of the start is among the booked ids.
`isoOf` models `new Date(ms).toISOString()`. -/
def futureKeep (isoOf : Int → String) (booked : List String) (nowMs : Int)
    (s : NormSlot) : Bool :=
  match s.startMs with
  | none => false
  | some v =>
    if v == 0 then false
    else if v ≤ nowMs then false
    else if s.id == "" then false
    else if booked.contains s.id then false
    else if booked.contains (toString v) then false
    else if booked.contains (isoOf v) then false
    else true

/-- `futureSlots` from `AvailabilityTab.tsx`. -/
def futureSlots (isoOf : Int → String) (slots : List NormSlot)
    (booked : List String) (nowMs : Int) : List NormSlot :=
  slots.filter (futureKeep isoOf booked nowMs)

/-- The dedupe invariant carried through the `slotMap` fold: keys are
unique, every processed slot with a non-empty normalized id is
represented, and every entry stores one of its duplicates — with the
entry's parsed start at most any duplicate's parseable start. -/
def SlotInv (dp np : String → Option Int) (processed : List RawSlot)
    (m : List (String × NormSlot)) : Prop :=
  (m.map Prod.fst).Nodup ∧
  (∀ s ∈ processed, normalizeSlotIdRaw s ≠ "" →
    normalizeSlotIdRaw s ∈ m.map Prod.fst) ∧
  (∀ p ∈ m, p.2.id = p.1 ∧ p.2.raw ∈ processed ∧
    normalizeSlotIdRaw p.2.raw = p.1 ∧ p.1 ≠ "" ∧
    p.2.startMs = parseStartToMsRaw dp np p.2.raw ∧
    (∀ s ∈ processed, normalizeSlotIdRaw s = p.1 →
      ∀ v, parseStartToMsRaw dp np s = some v →
        ∃ w, p.2.startMs = some w ∧ w ≤ v))

/-- C6 concrete data: two raw slots sharing normalized id `X`, the
first starting at epoch-second 5000, the second at 2000. -/
def sAC6 : RawSlot :=
  ⟨some "X", none, none, some (.num 5000), none, none, none, some "Campo 1", none⟩

/-- C6 concrete data: the duplicate with the earlier start. -/
def sBC6 : RawSlot :=
  ⟨some "X", none, none, some (.num 2000), none, none, none, some "Campo 2", none⟩

/-- C6 concrete data: the raw slot list. -/
def slotsC6 : List RawSlot := [sAC6, sBC6]

/-- C6 concrete data: a `Date.parse` instance (never consulted — the
starts are numeric). -/
def dpC6 : String → Option Int := fun _ => none

/-- C6 concrete data: a `Number` instance (never consulted). -/
def npC6 : String → Option Int := fun _ => none

/-- C6 concrete data: the retained normalized slot (earliest start,
2000 s = 2000000 ms). -/
def nsBC6 : NormSlot := ⟨sBC6, "X", some 2000000⟩

/-- C7 concrete data: an all-absent raw record. -/
def rawEmptyC7 : RawSlot := ⟨none, none, none, none, none, none, none, none, none⟩

/-- C7 concrete data: a normalized slot with a parseable future
start. -/
def nsGoodC7 : NormSlot := ⟨rawEmptyC7, "S1", some 100⟩

/-- C7 concrete data: a normalized slot whose start failed to parse. -/
def nsBadC7 : NormSlot := ⟨rawEmptyC7, "S2", none⟩

/-- C7 concrete data: the slot list. -/
def slotsC7 : List NormSlot := [nsGoodC7, nsBadC7]

/-- C7 concrete data: an event with no matches (empty booked set). -/
def evC7 : GEvent := ⟨"e1", [], none⟩

/-- C7 concrete data: oracle instances. -/
def dpC7 : String → Option Int := fun _ => none

/-- C7 concrete data: numeric-parse oracle instance. -/
def npC7 : String → Option Int := fun _ => none

/-- C7 concrete data: `toISOString` oracle instance. -/
def isoC7 : Int → String := fun _ => ""

-- ===== THEOREMS =====

/-- Elements of the Booking Index are never the empty string: only
matches with a truthy (non-null, non-empty) `slotId` contribute. -/
theorem mem_getAllBookedSlotIds_ne_empty (e : GEvent) (s : String)
    (hs : s ∈ getAllBookedSlotIds e) : s ≠ "" := by
  simp only [getAllBookedSlotIds, List.mem_flatMap, List.mem_map, List.mem_filter] at hs
  obtain ⟨t, _, g, _, m, ⟨_, hm⟩, rfl⟩ := hs
  simp only [Bool.and_eq_true] at hm
  cases h : m.slotId with
  | none => simp [truthyStr, h] at hm
  | some v =>
    simp only [truthyStr, h, Bool.not_eq_true', beq_eq_false_iff_ne, ne_eq] at hm
    simpa [h] using hm.1


/-- C1 (corrected): in `saveMatchBooking`, a slot id already present in
the Booking Index is rejected at commit time with the conflict error
and no state change; a successful booking through that path implies the
slot was unclaimed and the match was written with the booked slot's
data.  By contrast, `handleConfirmBookSlot` (the slot-tab booking path)
writes the booking for any found pending match whose chosen slot has a
parseable start, with no check of the Booking Index. -/
theorem c1_booking_conflict_check (dp : String → Option Int) (iso : Int → String)
    (e : GEvent) (tr : GTournament) (gid : String) (m : GMatch) (sid : String) :
    ((tr.groups.find? (fun g => g.id == gid)).isSome = true →
      sid ∈ getAllBookedSlotIds e →
      saveMatchBooking dp iso e tr gid m sid =
        .err "Slot già prenotato, scegli un altro slot.") ∧
    (∀ e', saveMatchBooking dp iso e tr gid m sid = .ok e' →
      sid ∉ getAllBookedSlotIds e ∧
      ∃ ts ms, (e.globalTimeSlots.getD []).find? (fun s => s.id == sid) = some ts ∧
        dp ts.start = some ms ∧
        e' = commitMatchUpdate e tr gid m.id
          { m with
            status := "scheduled"
            scheduledTime := some (iso ms)
            slotId := some ts.id
            location := some (ts.location.getD "")
            field := some (ts.field.getD (ts.location.getD "")) }) ∧
    (∀ (g : GGroup) (m0 : GMatch) (slot : GTimeSlot) (ms : Int),
      tr.groups.find? (fun g => g.id == gid) = some g →
      g.gmatches.find? (fun mm => mm.id == m0.id) = some m0 →
      dp slot.start = some ms →
      handleConfirmBookSlot dp iso e tr gid m0.id slot =
        .ok (commitMatchUpdate e tr gid m0.id
          { m0 with
            status := "scheduled"
            scheduledTime := some (iso ms)
            location := some (slot.location.getD "")
            field := some (slot.field.getD (slot.location.getD ""))
            slotId := some slot.id })) := by
  refine ⟨?_, ?_, ?_⟩
  · intro hsome hmem
    obtain ⟨g, hg⟩ := Option.isSome_iff_exists.mp hsome
    have hne : (sid == "") = false := by
      simpa using mem_getAllBookedSlotIds_ne_empty e sid hmem
    have hcont : (getAllBookedSlotIds e).contains sid = true := by
      simpa using hmem
    simp only [saveMatchBooking, hg, hne, Bool.false_eq_true, if_false]
    rw [if_pos hcont]
  · intro e' h
    unfold saveMatchBooking at h
    split at h
    · simp at h
    · split at h
      · simp at h
      · split at h
        · simp at h
        · next hcont =>
          refine ⟨by simpa using hcont, ?_⟩
          split at h
          · simp at h
          · next ts hfind =>
            split at h
            · simp at h
            · split at h
              · simp at h
              · next ms hdp =>
                refine ⟨ts, ms, hfind, hdp, ?_⟩
                simp only [BookOutcome.ok.injEq] at h
                exact h.symm
  · intro g m0 slot ms hg hm hdp
    simp [handleConfirmBookSlot, hg, hm, hdp]

/-- C1 witness: for the concrete event `evC1` the slot `S1` is claimed,
and `saveMatchBooking` indeed rejects it with the conflict error. -/
theorem c1_booking_conflict_check_witness :
    ("S1" ∈ getAllBookedSlotIds evC1) ∧
    saveMatchBooking dpC1 isoC1 evC1 trC1 "g1" mPendC1 "S1" =
      .err "Slot già prenotato, scegli un altro slot." :=
  ⟨by decide,
   (c1_booking_conflict_check dpC1 isoC1 evC1 trC1 "g1" mPendC1 "S1").1
     (by decide) (by decide)⟩

/-- C1 counterexample: slot `S1` is already in the Booking Index of
`evC1` (held by the scheduled match `m2`), yet booking the pending
match `m1` into `S1` through `handleConfirmBookSlot` succeeds and
produces a state in which two matches hold slot `S1` — the claim that
every booking attempt into a claimed slot is rejected with a conflict
error and no state change is false on this path. -/
theorem c1_counterexample :
    ("S1" ∈ getAllBookedSlotIds evC1) ∧
    handleConfirmBookSlot dpC1 isoC1 evC1 trC1 "g1" "m1" slotS1C1 = .ok evC1after ∧
    ((eventMatches evC1after).filter (fun mm => mm.slotId == some "S1")).length = 2 ∧
    evC1after ≠ evC1 := by
  refine ⟨by decide, by decide, by decide, by decide⟩


/-- C3 (corrected): deleting a completed match's result rewrites the
match with status `pending` and both scores cleared, but the
scheduling fields (`slotId`, `scheduledTime`, `location`, `field`) are
retained unchanged — the operation is not a full reset. -/
theorem c3_delete_result_resets_scores_only (e : GEvent) (tr : GTournament)
    (gid : String) (m : GMatch) (g : GGroup)
    (hg : tr.groups.find? (fun x => x.id == gid) = some g) :
    deleteMatchResult e tr gid m =
      .ok (commitMatchUpdate e tr gid m.id
        { m with score1 := none, score2 := none, status := "pending" }) ∧
    ({ m with score1 := none, score2 := none, status := "pending" } : GMatch).status
        = "pending" ∧
    ({ m with score1 := none, score2 := none, status := "pending" } : GMatch).score1
        = none ∧
    ({ m with score1 := none, score2 := none, status := "pending" } : GMatch).score2
        = none ∧
    ({ m with score1 := none, score2 := none, status := "pending" } : GMatch).slotId
        = m.slotId ∧
    ({ m with score1 := none, score2 := none, status := "pending" } : GMatch).scheduledTime
        = m.scheduledTime ∧
    ({ m with score1 := none, score2 := none, status := "pending" } : GMatch).location
        = m.location ∧
    ({ m with score1 := none, score2 := none, status := "pending" } : GMatch).field
        = m.field := by
  refine ⟨?_, rfl, rfl, rfl, rfl, rfl, rfl, rfl⟩
  simp [deleteMatchResult, hg]

/-- C3 witness: deleting the result of the concrete completed match
`mComplC3` produces exactly `evC3after`. -/
theorem c3_delete_result_resets_scores_only_witness :
    (trC3.groups.find? (fun x => x.id == "g1") = some ⟨"g1", ["A", "B"], [mComplC3]⟩) ∧
    deleteMatchResult evC3 trC3 "g1" mComplC3 = .ok evC3after :=
  ⟨by decide,
   (c3_delete_result_resets_scores_only evC3 trC3 "g1" mComplC3
     ⟨"g1", ["A", "B"], [mComplC3]⟩ (by decide)).1⟩

/-- C3 counterexample: after deleting the result of the completed match
`m1` (which held slot `S1`), the stored match is pending with scores
cleared but still carries `slotId = "S1"` and its scheduled time — the
claim that result-deletion also clears the scheduling fields is
false. -/
theorem c3_counterexample :
    deleteMatchResult evC3 trC3 "g1" mComplC3 = .ok evC3after ∧
    ((eventMatches evC3after).filter (fun mm => mm.id == "m1")).map
        (fun mm => (mm.status, mm.score1, mm.score2, mm.slotId, mm.scheduledTime)) =
      [("pending", none, none, some "S1", some "2030-01-01T18:00:00.000Z")] := by
  exact ⟨by decide, by decide⟩

/-- C4 (corrected): `saveRescheduleMatch` checks the chosen slot
against the full Booking Index, which includes the rescheduled match's
own current slot, so re-selecting the current slot is rejected with the
conflict error like any other claimed slot; a successful reschedule
implies the chosen id was claimed by no scheduled/completed match at
all, and replaces `slotId`, `scheduledTime`, `location` and `field` on
the match (leaving status and scores unchanged). -/
theorem c4_reschedule_guard (dp : String → Option Int) (iso : Int → String)
    (e : GEvent) (tr : GTournament) (gid : String) (m : GMatch) (sid : String) :
    ((tr.groups.find? (fun g => g.id == gid)).isSome = true →
      sid ∈ getAllBookedSlotIds e →
      saveRescheduleMatch dp iso e tr gid m sid =
        .err "Slot già prenotato da un\x27altra partita.") ∧
    (∀ e', saveRescheduleMatch dp iso e tr gid m sid = .ok e' →
      sid ∉ getAllBookedSlotIds e ∧ sid ≠ "" ∧
      ∃ u, e' = commitMatchUpdate e tr gid m.id u ∧
        u.status = m.status ∧ u.id = m.id ∧
        u.score1 = m.score1 ∧ u.score2 = m.score2 ∧
        (match (e.globalTimeSlots.getD []).find? (fun s => s.id == sid) with
         | none => u.slotId = some "" ∧ u.scheduledTime = some "" ∧
             u.location = some "" ∧ u.field = some ""
         | some ts => u.slotId = some ts.id ∧
             u.location = some (ts.location.getD "") ∧
             u.field = some (ts.field.getD (ts.location.getD "")))) := by
  constructor
  · intro hsome hmem
    obtain ⟨g, hg⟩ := Option.isSome_iff_exists.mp hsome
    have hne : (sid == "") = false := by
      simpa using mem_getAllBookedSlotIds_ne_empty e sid hmem
    have hcont : (getAllBookedSlotIds e).contains sid = true := by
      simpa using hmem
    simp only [saveRescheduleMatch, hg, hne, Bool.false_eq_true, if_false]
    rw [if_pos hcont]
  · intro e' h
    unfold saveRescheduleMatch at h
    split at h
    · simp at h
    · split at h
      · simp at h
      · next hsid =>
        split at h
        · simp at h
        · next hcont =>
          refine ⟨by simpa using hcont, by simpa using hsid, ?_⟩
          split at h
          · simp only [BookOutcome.ok.injEq] at h
            exact ⟨_, h.symm, rfl, rfl, rfl, rfl, ⟨rfl, rfl, rfl, rfl⟩⟩
          · split at h
            · simp only [BookOutcome.ok.injEq] at h
              exact ⟨_, h.symm, rfl, rfl, rfl, rfl, ⟨rfl, rfl, rfl⟩⟩
            · split at h
              · simp at h
              · simp only [BookOutcome.ok.injEq] at h
                exact ⟨_, h.symm, rfl, rfl, rfl, rfl, ⟨rfl, rfl, rfl⟩⟩

/-- C4 witness: with the concrete event `evC4`, rescheduling onto a
claimed slot id is rejected by the guard of `c4_reschedule_guard`. -/
theorem c4_reschedule_guard_witness :
    (trC4.groups.find? (fun g => g.id == "g1")).isSome = true ∧
    "S1" ∈ getAllBookedSlotIds evC4 ∧
    saveRescheduleMatch dpC4 isoC4 evC4 trC4 "g1" mC4 "S1" =
      .err "Slot già prenotato da un\x27altra partita." :=
  ⟨by decide, by decide,
   (c4_reschedule_guard dpC4 isoC4 evC4 trC4 "g1" mC4 "S1").1 (by decide) (by decide)⟩

/-- C4 counterexample: the scheduled match `m1` holds slot `S1`, and
re-selecting its own current slot in `saveRescheduleMatch` is rejected
as already booked — the claim that the claimed set excludes the match's
own prior slot (so its own slot is not rejected) is false. -/
theorem c4_counterexample :
    mC4.slotId = some "S1" ∧ mC4.status = "scheduled" ∧
    saveRescheduleMatch dpC4 isoC4 evC4 trC4 "g1" mC4 "S1" =
      .err "Slot già prenotato da un\x27altra partita." := by
  exact ⟨by decide, by decide, by decide⟩

/-- C5 (corrected): `saveMatchResult` unconditionally rewrites the
match as completed with `score1`/`score2` set to the `Number`
conversion of the entered strings; it has no error path and performs no
validation that the scores are non-negative integers.  The scheduling
fields are left unchanged. -/
theorem c5_save_result_no_validation (nm : String → Option Int) (e : GEvent)
    (tr : GTournament) (gid : String) (m : GMatch) (s1 s2 : String) (g : GGroup)
    (hg : tr.groups.find? (fun x => x.id == gid) = some g) :
    saveMatchResult nm e tr gid m s1 s2 =
      .ok (commitMatchUpdate e tr gid m.id
        { m with score1 := nm s1, score2 := nm s2, status := "completed" }) ∧
    (∀ msg, saveMatchResult nm e tr gid m s1 s2 ≠ .err msg) ∧
    ({ m with score1 := nm s1, score2 := nm s2, status := "completed" } : GMatch).status
        = "completed" ∧
    ({ m with score1 := nm s1, score2 := nm s2, status := "completed" } : GMatch).slotId
        = m.slotId ∧
    ({ m with score1 := nm s1, score2 := nm s2, status := "completed" } : GMatch).scheduledTime
        = m.scheduledTime := by
  refine ⟨by simp [saveMatchResult, hg], ?_, rfl, rfl, rfl⟩
  intro msg
  simp [saveMatchResult, hg]

/-- C5 witness: entering the scores "3" and "1" for the concrete match
commits a completed result through `c5_save_result_no_validation`. -/
theorem c5_save_result_no_validation_witness :
    (trC5.groups.find? (fun x => x.id == "g1") = some ⟨"g1", ["A", "B"], [mC5]⟩) ∧
    saveMatchResult jsNumberModel evC5 trC5 "g1" mC5 "3" "1" =
      .ok (commitMatchUpdate evC5 trC5 "g1" mC5.id
        { mC5 with score1 := jsNumberModel "3", score2 := jsNumberModel "1",
                   status := "completed" }) :=
  ⟨by decide,
   (c5_save_result_no_validation jsNumberModel evC5 trC5 "g1" mC5 "3" "1"
     ⟨"g1", ["A", "B"], [mC5]⟩ (by decide)).1⟩

/-- C5 counterexample: the string "-3" is not parseable as a
non-negative integer, yet `saveMatchResult` is not a no-op on it — the
match is written as completed with score1 = -3, so the claim that such
input yields a validation-error no-op is false. -/
theorem c5_counterexample :
    isNonNegIntString "-3" = false ∧
    saveMatchResult jsNumberModel evC5 trC5 "g1" mC5 "-3" "1" = .ok evC5after ∧
    ((eventMatches evC5after).filter (fun mm => mm.id == "m1")).map
        (fun mm => (mm.status, mm.score1, mm.score2)) =
      [("completed", some (-3), some 1)] ∧
    evC5after ≠ evC5 := by
  exact ⟨by decide, by decide, by decide, by decide⟩


/-- C2 (confirmed): when a player is marked unavailable on date `d` and
a slot's calendar date projects to `d`, the slot-interest button is
disabled, so the click attempt performs no write: the preference store
is unchanged and `isInterested` is preserved for every slot. -/
theorem c2_availability_gating (dateKeyOf : String → String) (st : AvailState)
    (store : List (String × Bool)) (p d slotId slotStartIso : String)
    (hunavail : isParticipantUnavailableOn st p d = true)
    (hdate : dateKeyOf slotStartIso = d) :
    slotInterestClick dateKeyOf st store (some p) slotId slotStartIso = store ∧
    isInterested (slotInterestClick dateKeyOf st store (some p) slotId slotStartIso)
        p slotId
      = isInterested store p slotId := by
  have h : slotInterestClick dateKeyOf st store (some p) slotId slotStartIso = store := by
    simp [slotInterestClick, hdate, hunavail]
  exact ⟨h, by rw [h]⟩

/-- C2 witness: player `P` is unavailable on 2025-06-01 and clicking
the interest button of a slot on that date leaves the empty store
unchanged. -/
theorem c2_availability_gating_witness :
    isParticipantUnavailableOn stC2 "P" "2025-06-01" = true ∧
    slotInterestClick dateKeyC2 stC2 [] (some "P") "S2" "2025-06-01T18:00:00.000Z" = [] :=
  ⟨by decide,
   (c2_availability_gating dateKeyC2 stC2 [] "P" "2025-06-01" "S2"
     "2025-06-01T18:00:00.000Z" (by decide) (by decide)).1⟩

/-- C10 (confirmed): deleting a time slot removes every slot with that
id from the tournament's `timeSlots`; when the slot is found, every
match of the tournament is passed through `resetIfScheduledAt` on the
slot's time, which resets exactly the matches whose `scheduledTime`
equals that time to pending with `scheduledTime` and `location`
cleared, leaving every other field — including `slotId` — unchanged;
matches are untouched when the slot id is not found, and other
tournaments are untouched. -/
theorem c10_delete_slot_resets_by_time (t : ATournament) (slotId : String) :
    (deleteSlotInTournament t slotId).timeSlots
        = t.timeSlots.filter (fun ts => !(ts.id == slotId)) ∧
    (∀ sd, t.timeSlots.find? (fun ts => ts.id == slotId) = some sd →
      (deleteSlotInTournament t slotId).groups =
        t.groups.map (fun g =>
          { g with gmatches := g.gmatches.map (resetIfScheduledAt sd.time) })) ∧
    (t.timeSlots.find? (fun ts => ts.id == slotId) = none →
      (deleteSlotInTournament t slotId).groups = t.groups) ∧
    (∀ (tm : String) (m : GMatch),
      (m.scheduledTime = some tm →
        resetIfScheduledAt tm m =
          { m with status := "pending", scheduledTime := none, location := none }) ∧
      (m.scheduledTime ≠ some tm → resetIfScheduledAt tm m = m) ∧
      (resetIfScheduledAt tm m).id = m.id ∧
      (resetIfScheduledAt tm m).slotId = m.slotId ∧
      (resetIfScheduledAt tm m).field = m.field ∧
      (resetIfScheduledAt tm m).score1 = m.score1 ∧
      (resetIfScheduledAt tm m).score2 = m.score2 ∧
      (resetIfScheduledAt tm m).player1Id = m.player1Id ∧
      (resetIfScheduledAt tm m).player2Id = m.player2Id) ∧
    (∀ (e : AEvent) (trId : String) (t' : ATournament),
      t' ∈ e.tournaments → (t'.id == trId) = false →
      t' ∈ (handleDeleteSlot e trId slotId).tournaments) := by
  refine ⟨?_, ?_, ?_, ?_, ?_⟩
  · unfold deleteSlotInTournament
    split <;> rfl
  · intro sd h
    simp [deleteSlotInTournament, h]
  · intro h
    simp [deleteSlotInTournament, h]
  · intro tm m
    refine ⟨?_, ?_, ?_, ?_, ?_, ?_, ?_, ?_, ?_⟩
    · intro h; simp [resetIfScheduledAt, h]
    · intro h
      have hb : (m.scheduledTime == some tm) = false := by simpa using h
      simp [resetIfScheduledAt, hb]
    all_goals unfold resetIfScheduledAt; split <;> rfl
  · intro e trId t' ht hne
    simp only [handleDeleteSlot, List.mem_map]
    exact ⟨t', ht, by simp [hne]⟩

/-- C10 witness: in the concrete tournament `tC10`, deleting slot `S1`
finds `sdC10` and maps every group's matches through
`resetIfScheduledAt` on its time. -/
theorem c10_delete_slot_resets_by_time_witness :
    tC10.timeSlots.find? (fun ts => ts.id == "S1") = some sdC10 ∧
    (deleteSlotInTournament tC10 "S1").groups =
      tC10.groups.map (fun g =>
        { g with gmatches := g.gmatches.map (resetIfScheduledAt sdC10.time) }) :=
  ⟨by decide, (c10_delete_slot_resets_by_time tC10 "S1").2.1 sdC10 (by decide)⟩


/-- Reading a counter map after `bump k` adds one exactly at key
`k`. -/
theorem lookupCount_bump (mp : List (String × Nat)) (k pid : String) :
    lookupCount (bump mp k) pid
      = lookupCount mp pid + (if k = pid then 1 else 0) := by
  induction mp with
  | nil =>
    by_cases h : k = pid
    · subst h; simp [bump, lookupCount]
    · simp [bump, lookupCount, h, Ne.symm h]
  | cons hd tl ih =>
    obtain ⟨a, n⟩ := hd
    by_cases hak : a = k
    · subst hak
      by_cases hap : a = pid
      · subst hap; simp [bump, lookupCount]
      · simp [bump, lookupCount, hap]
    · by_cases hap : a = pid
      · subst hap
        simp [bump, lookupCount, hak, Ne.symm hak]
      · simp [bump, lookupCount, hak, hap, ih]

/-- One `expectedStep` adds one per side mentioning the player. -/
theorem lookupCount_expectedStep (mp : List (String × Nat)) (m : GMatch)
    (pid : String) :
    lookupCount (expectedStep mp m) pid
      = lookupCount mp pid
        + (if (!(m.player1Id == "") && (m.player1Id == pid)) = true then 1 else 0)
        + (if (!(m.player2Id == "") && (m.player2Id == pid)) = true then 1 else 0) := by
  unfold expectedStep
  by_cases h1 : m.player1Id = ""
  · by_cases h2 : m.player2Id = ""
    · simp [h1, h2]
    · simp [h1, h2, lookupCount_bump, beq_iff_eq]
  · by_cases h2 : m.player2Id = ""
    · simp [h1, h2, lookupCount_bump, beq_iff_eq]
    · simp [h1, h2, lookupCount_bump, beq_iff_eq]

/-- One `playedStep` adds one per side mentioning the player when the
side's increment condition holds. -/
theorem lookupCount_playedStep (placed : String → Bool)
    (mp : List (String × Nat)) (m : GMatch) (pid : String) :
    lookupCount (playedStep placed mp m) pid
      = lookupCount mp pid
        + (if ((!(m.player1Id == "") && placed m.player1Id && isCompletedStatus m)
              && (m.player1Id == pid)) = true then 1 else 0)
        + (if ((!(m.player2Id == "") && placed m.player2Id && isCompletedStatus m)
              && (m.player2Id == pid)) = true then 1 else 0) := by
  unfold playedStep
  by_cases h1 : (!(m.player1Id == "") && placed m.player1Id && isCompletedStatus m) = true
  · by_cases h2 : (!(m.player2Id == "") && placed m.player2Id && isCompletedStatus m) = true
    · simp [h1, h2, lookupCount_bump, beq_iff_eq]
    · simp [h1, h2, lookupCount_bump, beq_iff_eq]
  · by_cases h2 : (!(m.player2Id == "") && placed m.player2Id && isCompletedStatus m) = true
    · simp [h1, h2, lookupCount_bump, beq_iff_eq]
    · simp [h1, h2]

/-- The expected-counter fold equals the two per-side counts. -/
theorem expectedOf_foldl (ms : List GMatch) :
    ∀ (mp : List (String × Nat)) (pid : String),
      lookupCount (ms.foldl expectedStep mp) pid
        = lookupCount mp pid
          + ms.countP (fun m => !(m.player1Id == "") && (m.player1Id == pid))
          + ms.countP (fun m => !(m.player2Id == "") && (m.player2Id == pid)) := by
  induction ms with
  | nil => intro mp pid; simp
  | cons m tl ih =>
    intro mp pid
    simp only [List.foldl_cons, List.countP_cons, ih, lookupCount_expectedStep]
    omega

/-- The played-counter fold equals the two per-side gated counts. -/
theorem playedOf_foldl (placed : String → Bool) (ms : List GMatch) :
    ∀ (mp : List (String × Nat)) (pid : String),
      lookupCount (ms.foldl (playedStep placed) mp) pid
        = lookupCount mp pid
          + ms.countP (fun m =>
              (!(m.player1Id == "") && placed m.player1Id && isCompletedStatus m)
                && (m.player1Id == pid))
          + ms.countP (fun m =>
              (!(m.player2Id == "") && placed m.player2Id && isCompletedStatus m)
                && (m.player2Id == pid)) := by
  induction ms with
  | nil => intro mp pid; simp
  | cons m tl ih =>
    intro mp pid
    simp only [List.foldl_cons, List.countP_cons, ih, lookupCount_playedStep]
    omega

/-- C9 (corrected): for a placed player, the aggregator's `expected` is
the per-side sum (a match with the player on both sides counts twice),
`played` is the per-side sum restricted to completed/finished matches,
`played ≤ expected`, `remaining = expected − played` is never negative,
and `played + (expected − played) = expected`. -/
theorem c9_match_count_conservation (placed : String → Bool) (ms : List GMatch)
    (pid : String) (hplaced : placed pid = true) :
    expectedOf ms pid
        = ms.countP (fun m => !(m.player1Id == "") && (m.player1Id == pid))
          + ms.countP (fun m => !(m.player2Id == "") && (m.player2Id == pid)) ∧
    playedOf placed ms pid
        = ms.countP (fun m =>
            !(m.player1Id == "") && (m.player1Id == pid) && isCompletedStatus m)
          + ms.countP (fun m =>
            !(m.player2Id == "") && (m.player2Id == pid) && isCompletedStatus m) ∧
    playedOf placed ms pid ≤ expectedOf ms pid ∧
    0 ≤ remainingOf placed ms pid ∧
    remainingOf placed ms pid
        = (expectedOf ms pid : Int) - (playedOf placed ms pid : Int) ∧
    (playedOf placed ms pid : Int)
        + ((expectedOf ms pid : Int) - (playedOf placed ms pid : Int))
      = (expectedOf ms pid : Int) := by
  have hexp :
      expectedOf ms pid
        = ms.countP (fun m => !(m.player1Id == "") && (m.player1Id == pid))
          + ms.countP (fun m => !(m.player2Id == "") && (m.player2Id == pid)) := by
    simpa [expectedOf, perPlayerExpected, lookupCount] using expectedOf_foldl ms [] pid
  have hplay :
      playedOf placed ms pid
        = ms.countP (fun m =>
            !(m.player1Id == "") && (m.player1Id == pid) && isCompletedStatus m)
          + ms.countP (fun m =>
            !(m.player2Id == "") && (m.player2Id == pid) && isCompletedStatus m) := by
    have h := playedOf_foldl placed ms [] pid
    simp only [lookupCount, Nat.zero_add] at h
    have e1 : ms.countP (fun m =>
          (!(m.player1Id == "") && placed m.player1Id && isCompletedStatus m)
            && (m.player1Id == pid))
        = ms.countP (fun m =>
          !(m.player1Id == "") && (m.player1Id == pid) && isCompletedStatus m) := by
      refine List.countP_congr fun m _ => ?_
      by_cases hp : m.player1Id = pid
      · simp [hp, hplaced, Bool.and_eq_true]
      · simp [hp]
    have e2 : ms.countP (fun m =>
          (!(m.player2Id == "") && placed m.player2Id && isCompletedStatus m)
            && (m.player2Id == pid))
        = ms.countP (fun m =>
          !(m.player2Id == "") && (m.player2Id == pid) && isCompletedStatus m) := by
      refine List.countP_congr fun m _ => ?_
      by_cases hp : m.player2Id = pid
      · simp [hp, hplaced, Bool.and_eq_true]
      · simp [hp]
    rw [playedOf, perPlayerPlayed, h, e1, e2]
  have hle : playedOf placed ms pid ≤ expectedOf ms pid := by
    rw [hexp, hplay]
    refine Nat.add_le_add ?_ ?_ <;>
      exact List.countP_mono_left fun m _ h => by
        simp only [Bool.and_eq_true] at h ⊢
        tauto
  have hrem : remainingOf placed ms pid
      = (expectedOf ms pid : Int) - (playedOf placed ms pid : Int) := by
    rw [remainingOf, max_eq_right]
    exact sub_nonneg.mpr (Int.ofNat_le.mpr hle)
  refine ⟨hexp, hplay, hle, ?_, hrem, by ring⟩
  rw [hrem]
  exact sub_nonneg.mpr (Int.ofNat_le.mpr hle)

/-- C9 witness: on the concrete two-match snapshot, player `A` (placed)
has the stated expected/played counts, conservation included. -/
theorem c9_match_count_conservation_witness :
    placedC9 "A" = true ∧
    expectedOf msC9w "A"
        = msC9w.countP (fun m => !(m.player1Id == "") && (m.player1Id == "A"))
          + msC9w.countP (fun m => !(m.player2Id == "") && (m.player2Id == "A")) :=
  ⟨by decide, (c9_match_count_conservation placedC9 msC9w "A" (by decide)).1⟩

/-- C9 counterexample: on a group whose only match lists player `A` on
both sides, the aggregator's `expected` for `A` is 2, while the number
of group matches in which `A` is player1 or player2 is 1 — the claim's
"expected equals the number of group matches in which the player is
player1 or player2" is false on this snapshot. -/
theorem c9_counterexample :
    expectedOf msC9 "A" = 2 ∧
    specExpectedCount msC9 "A" = 1 ∧
    expectedOf msC9 "A" ≠ specExpectedCount msC9 "A" := by
  exact ⟨by decide, by decide, by decide⟩


/-- Chunking concatenates back to the original list. -/
theorem chunksTenFuel_flatten {α : Type} :
    ∀ (fuel : Nat) (l : List α), l.length ≤ fuel →
      (chunksTenFuel fuel l).flatten = l := by
  intro fuel
  induction fuel with
  | zero =>
    intro l h
    cases l with
    | nil => simp [chunksTenFuel]
    | cons x xs => simp at h
  | succ f ih =>
    intro l h
    cases l with
    | nil => simp [chunksTenFuel]
    | cons x xs =>
      simp only [chunksTenFuel, List.flatten]
      rw [ih ((x :: xs).drop 10)
        (by simp only [List.length_drop, List.length_cons] at *; omega)]
      exact List.take_append_drop 10 (x :: xs)

/-- The number of chunks is the length divided by 10, rounded up. -/
theorem chunksTenFuel_length {α : Type} :
    ∀ (fuel : Nat) (l : List α), l.length ≤ fuel →
      (chunksTenFuel fuel l).length = (l.length + 9) / 10 := by
  intro fuel
  induction fuel with
  | zero =>
    intro l h
    cases l with
    | nil => simp [chunksTenFuel]
    | cons x xs => simp at h
  | succ f ih =>
    intro l h
    cases l with
    | nil => simp [chunksTenFuel]
    | cons x xs =>
      simp only [chunksTenFuel, List.length_cons]
      rw [ih ((x :: xs).drop 10)
        (by simp only [List.length_drop, List.length_cons] at *; omega)]
      simp only [List.length_drop, List.length_cons] at *
      omega

/-- Every chunk is non-empty and holds at most 10 ids. -/
theorem chunksTenFuel_sizes {α : Type} :
    ∀ (fuel : Nat) (l : List α), l.length ≤ fuel →
      ∀ c ∈ chunksTenFuel fuel l, c ≠ [] ∧ c.length ≤ 10 := by
  intro fuel
  induction fuel with
  | zero =>
    intro l h c hc
    cases l with
    | nil => simp [chunksTenFuel] at hc
    | cons x xs => simp at h
  | succ f ih =>
    intro l h c hc
    cases l with
    | nil => simp [chunksTenFuel] at hc
    | cons x xs =>
      simp only [chunksTenFuel, List.mem_cons] at hc
      rcases hc with rfl | hc
      · refine ⟨by simp [List.take_cons], ?_⟩
        simp only [List.length_take, List.length_cons]
        omega
      · exact ih ((x :: xs).drop 10)
          (by simp only [List.length_drop, List.length_cons] at *; omega) c hc

/-- The fuel is irrelevant once it covers the list length. -/
theorem chunksTenFuel_congr {α : Type} :
    ∀ (f1 f2 : Nat) (l : List α), l.length ≤ f1 → l.length ≤ f2 →
      chunksTenFuel f1 l = chunksTenFuel f2 l := by
  intro f1
  induction f1 with
  | zero =>
    intro f2 l h1 _
    cases l with
    | nil => cases f2 <;> simp [chunksTenFuel]
    | cons x xs => simp at h1
  | succ f ih =>
    intro f2 l h1 h2
    cases l with
    | nil => cases f2 <;> simp [chunksTenFuel]
    | cons x xs =>
      cases f2 with
      | zero => simp at h2
      | succ f2' =>
        simp only [chunksTenFuel, List.cons.injEq, true_and]
        exact ih f2' ((x :: xs).drop 10)
          (by simp only [List.length_drop, List.length_cons] at *; omega)
          (by simp only [List.length_drop, List.length_cons] at *; omega)

/-- Unfolding equation of `chunksTen` on a non-empty list. -/
theorem chunksTen_eq_cons {α : Type} (x : α) (xs : List α) :
    chunksTen (x :: xs) = (x :: xs).take 10 :: chunksTen ((x :: xs).drop 10) := by
  show chunksTenFuel (x :: xs).length (x :: xs) = _
  simp only [List.length_cons, chunksTenFuel, List.cons.injEq, true_and]
  exact chunksTenFuel_congr xs.length ((x :: xs).drop 10).length ((x :: xs).drop 10)
    (by simp only [List.length_drop, List.length_cons]; omega) le_rfl

/-- A 23-element id list is chunked as 10 + 10 + 3. -/
theorem chunksTen_map_length_23 {α : Type} (l : List α) (h : l.length = 23) :
    (chunksTen l).map List.length = [10, 10, 3] := by
  cases l with
  | nil => simp at h
  | cons x xs =>
    rw [chunksTen_eq_cons]
    have h13 : ((x :: xs).drop 10).length = 13 := by
      simp only [List.length_drop, List.length_cons] at *
      omega
    cases hd : (x :: xs).drop 10 with
    | nil => rw [hd] at h13; simp at h13
    | cons y ys =>
      rw [hd] at h13
      rw [chunksTen_eq_cons]
      have h3 : ((y :: ys).drop 10).length = 3 := by
        simp only [List.length_drop, List.length_cons] at *
        omega
      cases he : (y :: ys).drop 10 with
      | nil => rw [he] at h3; simp at h3
      | cons z zs =>
        rw [he] at h3
        rw [chunksTen_eq_cons]
        have hz : ((z :: zs).drop 10) = [] := by
          refine List.drop_eq_nil_of_le ?_
          simp only [List.length_cons] at h3 ⊢
          omega
        rw [hz]
        have hzl : (z :: zs).length = 3 := h3
        have hyl : (y :: ys).length = 13 := h13
        have hxl : (x :: xs).length = 23 := h
        simp only [chunksTen, chunksTenFuel, List.map_cons, List.map_nil,
          List.length_take, hxl, hyl]
        rw [hzl]
        norm_num

/-- C8 (corrected): `getDateUnavailabilitiesForPlayers` issues
`⌈n/10⌉` backing queries over non-empty chunks of at most 10 player
ids each (10+10+3 for 23 ids, none for an empty list), whose chunks
concatenate back to the input, and appends the per-query results in
chunk order; against a store answering each query with exactly the
matching records, the merged result covers precisely the records of
the queried players.  Global date ordering of the merged list is not
part of this theorem — it does not hold across chunks (see the
counterexample). -/
theorem c8_chunked_queries
    (store : List String → Option (String × String) → List DateUnav)
    (db : List DateUnav) (playerIds : List String)
    (range : Option (String × String))
    (hstore : ∀ c ∈ chunksTen playerIds, ∀ d,
      d ∈ store c range ↔ d ∈ db ∧ d.playerId ∈ c) :
    (playerIds = [] →
      getDateUnavailabilitiesForPlayers store playerIds range = [] ∧
      chunksTen playerIds = []) ∧
    (chunksTen playerIds).length = (playerIds.length + 9) / 10 ∧
    (∀ c ∈ chunksTen playerIds, c ≠ [] ∧ c.length ≤ 10) ∧
    (chunksTen playerIds).flatten = playerIds ∧
    (playerIds.length = 23 → (chunksTen playerIds).map List.length = [10, 10, 3]) ∧
    getDateUnavailabilitiesForPlayers store playerIds range
        = (chunksTen playerIds).flatMap (fun chunk => store chunk range) ∧
    (∀ d, d ∈ getDateUnavailabilitiesForPlayers store playerIds range ↔
      d ∈ db ∧ d.playerId ∈ playerIds) := by
  refine ⟨?_, chunksTenFuel_length _ _ le_rfl, chunksTenFuel_sizes _ _ le_rfl,
    chunksTenFuel_flatten _ _ le_rfl, chunksTen_map_length_23 playerIds, rfl, ?_⟩
  · rintro rfl
    exact ⟨rfl, rfl⟩
  · intro d
    rw [getDateUnavailabilitiesForPlayers, List.mem_flatMap]
    have hflat : (chunksTen playerIds).flatten = playerIds :=
      chunksTenFuel_flatten _ _ le_rfl
    constructor
    · rintro ⟨c, hc, hd⟩
      obtain ⟨hdb, hpid⟩ := (hstore c hc d).mp hd
      refine ⟨hdb, ?_⟩
      have : d.playerId ∈ (chunksTen playerIds).flatten :=
        List.mem_flatten.mpr ⟨c, hc, hpid⟩
      rwa [hflat] at this
    · rintro ⟨hdb, hpid⟩
      have : d.playerId ∈ (chunksTen playerIds).flatten := by
        rwa [hflat]
      obtain ⟨c, hc, hcp⟩ := List.mem_flatten.mp this
      exact ⟨c, hc, (hstore c hc d).mpr ⟨hdb, hcp⟩⟩

/-- C8 witness: a two-player query against a conforming store issues
one chunk and returns exactly the records of the queried players. -/
theorem c8_chunked_queries_witness :
    (∀ d, d ∈ getDateUnavailabilitiesForPlayers storeC8 ["p01", "p11"] rngC8 ↔
      d ∈ dbC8 ∧ d.playerId ∈ ["p01", "p11"]) ∧
    (chunksTen ["p01", "p11"]).length = 1 :=
  ⟨(c8_chunked_queries storeC8 dbC8 ["p01", "p11"] rngC8
      (by
        intro c hc d
        simp only [storeC8, List.mem_filter]
        constructor
        · rintro ⟨hdb, hcont⟩
          exact ⟨hdb, by simpa using hcont⟩
        · rintro ⟨hdb, hmem⟩
          exact ⟨hdb, by simpa using hmem⟩)).2.2.2.2.2.2,
   by decide⟩

/-- C8 counterexample: with eleven player ids the two backing queries
are each date-sorted, but the merged result set is not in date order
(chunk one's record for `p01` has a later date than chunk two's record
for `p11`) — the claim's "correctly-ordered result set" fails. -/
theorem c8_counterexample :
    getDateUnavailabilitiesForPlayers storeC8 idsC8 rngC8
      = [⟨"p01", "2025-06-02"⟩, ⟨"p11", "2025-06-01"⟩] ∧
    sortedByDate (storeC8 (idsC8.take 10) rngC8) = true ∧
    sortedByDate (storeC8 (idsC8.drop 10) rngC8) = true ∧
    sortedByDate (getDateUnavailabilitiesForPlayers storeC8 idsC8 rngC8) = false := by
  exact ⟨by decide, by decide, by decide, by decide⟩


/-- `assocFind` misses exactly the keys absent from the map. -/
theorem assocFind_eq_none_iff (m : List (String × NormSlot)) (k : String) :
    assocFind m k = none ↔ k ∉ m.map Prod.fst := by
  induction m with
  | nil => simp [assocFind]
  | cons p rest ih =>
    obtain ⟨a, v⟩ := p
    by_cases h : a = k
    · subst h; simp [assocFind]
    · simp [assocFind, h, ih, Ne.symm h]

/-- A found binding is a member of the map. -/
theorem assocFind_mem (m : List (String × NormSlot)) (k : String) (v : NormSlot)
    (h : assocFind m k = some v) : (k, v) ∈ m := by
  induction m with
  | nil => simp [assocFind] at h
  | cons p rest ih =>
    obtain ⟨a, w⟩ := p
    by_cases hak : a = k
    · subst hak
      simp [assocFind] at h
      simp [h]
    · simp [assocFind, hak] at h
      simp [ih h]

/-- With unique keys, membership determines the find result. -/
theorem assocFind_of_mem_nodup (m : List (String × NormSlot)) (k : String)
    (v : NormSlot) (hnd : (m.map Prod.fst).Nodup) (h : (k, v) ∈ m) :
    assocFind m k = some v := by
  induction m with
  | nil => simp at h
  | cons q rest ih =>
    obtain ⟨a, w⟩ := q
    simp only [List.map_cons, List.nodup_cons] at hnd
    rcases List.mem_cons.mp h with heq | hm
    · injection heq with h1 h2
      subst h1; subst h2
      simp [assocFind]
    · by_cases hak : a = k
      · subst hak
        exact absurd (List.mem_map.mpr ⟨(a, v), hm, rfl⟩) hnd.1
      · simp only [assocFind]
        rw [if_neg (by simpa using hak)]
        exact ih hnd.2 hm

/-- The new binding is in the updated map. -/
theorem mem_assocSet_self (m : List (String × NormSlot)) (k : String)
    (v : NormSlot) : (k, v) ∈ assocSet m k v := by
  induction m with
  | nil => simp [assocSet]
  | cons p rest ih =>
    obtain ⟨a, w⟩ := p
    by_cases hak : a = k
    · subst hak; simp [assocSet]
    · simp [assocSet, hak, ih]

/-- Bindings at other keys survive an update. -/
theorem mem_assocSet_of_ne (m : List (String × NormSlot)) (k : String)
    (v : NormSlot) (p : String × NormSlot) (hne : p.1 ≠ k) (hp : p ∈ m) :
    p ∈ assocSet m k v := by
  induction m with
  | nil => simp at hp
  | cons q rest ih =>
    obtain ⟨a, w⟩ := q
    rcases List.mem_cons.mp hp with heq | hm
    · subst heq
      simp only [assocSet]
      rw [if_neg (by simpa using hne)]
      simp
    · by_cases hak : a = k
      · subst hak; simp [assocSet, hm]
      · simp [assocSet, hak, ih hm]

/-- With unique keys, a member of the updated map is the new binding or
an old binding at another key. -/
theorem mem_assocSet (m : List (String × NormSlot)) (k : String) (v : NormSlot)
    (p : String × NormSlot) (hnd : (m.map Prod.fst).Nodup)
    (hp : p ∈ assocSet m k v) : p = (k, v) ∨ (p ∈ m ∧ p.1 ≠ k) := by
  induction m with
  | nil => simp [assocSet] at hp; simp [hp]
  | cons q rest ih =>
    obtain ⟨a, w⟩ := q
    simp only [List.map_cons, List.nodup_cons] at hnd
    by_cases hak : a = k
    · subst hak
      simp only [assocSet, beq_self_eq_true, if_true] at hp
      rcases List.mem_cons.mp hp with heq | hm
      · exact Or.inl heq
      · refine Or.inr ⟨List.mem_cons_of_mem _ hm, ?_⟩
        intro hpk
        exact hnd.1 (List.mem_map.mpr ⟨p, hm, hpk⟩)
    · simp only [assocSet] at hp
      rw [if_neg (by simpa using hak)] at hp
      rcases List.mem_cons.mp hp with heq | hm
      · subst heq
        exact Or.inr ⟨List.mem_cons_self .., hak⟩
      · rcases ih hnd.2 hm with h | ⟨hmem, hne⟩
        · exact Or.inl h
        · exact Or.inr ⟨List.mem_cons_of_mem _ hmem, hne⟩

/-- Updating preserves the key list when the key exists, else appends
it. -/
theorem keys_assocSet (m : List (String × NormSlot)) (k : String) (v : NormSlot) :
    (assocSet m k v).map Prod.fst =
      if k ∈ m.map Prod.fst then m.map Prod.fst else m.map Prod.fst ++ [k] := by
  induction m with
  | nil => simp [assocSet]
  | cons q rest ih =>
    obtain ⟨a, w⟩ := q
    by_cases hak : a = k
    · subst hak; simp [assocSet]
    · simp only [assocSet, List.map_cons]
      rw [if_neg (by simpa using hak)]
      simp only [List.map_cons, ih]
      by_cases hk : k ∈ List.map Prod.fst rest
      · simp [hk, hak, Ne.symm hak]
      · simp [hk, hak, Ne.symm hak]


/-- One `slotMapStep` preserves the dedupe invariant. -/
theorem slotInv_step (dp np : String → Option Int) (processed : List RawSlot)
    (m : List (String × NormSlot)) (s : RawSlot) (h : SlotInv dp np processed m) :
    SlotInv dp np (processed ++ [s]) (slotMapStep dp np m s) := by
  obtain ⟨hnd, hcov, hgood⟩ := h
  have hkeep : (∀ s' ∈ processed ++ [s], normalizeSlotIdRaw s' ≠ "" →
      normalizeSlotIdRaw s' ∈ m.map Prod.fst) →
      (∀ v, parseStartToMsRaw dp np s = some v →
        ∀ p ∈ m, normalizeSlotIdRaw s = p.1 →
          ∃ w, p.2.startMs = some w ∧ w ≤ v) →
      SlotInv dp np (processed ++ [s]) m := by
    intro hc hmin
    refine ⟨hnd, hc, ?_⟩
    intro p hp
    obtain ⟨g1, g2, g3, g4, g5, g6⟩ := hgood p hp
    refine ⟨g1, List.mem_append_left _ g2, g3, g4, g5, ?_⟩
    intro s' hs' hnorm v hv
    rcases List.mem_append.mp hs' with h1 | h1
    · exact g6 s' h1 hnorm v hv
    · simp only [List.mem_singleton] at h1
      rw [h1] at hnorm hv
      exact hmin v hv p hp hnorm
  unfold slotMapStep
  by_cases hsid : normalizeSlotIdRaw s = ""
  · rw [if_pos (by simpa using hsid)]
    refine hkeep ?_ ?_
    · intro s' hs' hne
      rcases List.mem_append.mp hs' with h1 | h1
      · exact hcov s' h1 hne
      · simp only [List.mem_singleton] at h1
        rw [h1] at hne
        exact absurd hsid hne
    · intro v hv p hp hnorm
      obtain ⟨_, _, _, g4, _, _⟩ := hgood p hp
      exact absurd (hnorm.symm.trans hsid) g4
  · rw [if_neg (by simpa using hsid)]
    have hrepl : ∀ startMs : Option Int,
        startMs = parseStartToMsRaw dp np s →
        normalizeSlotIdRaw s ∈ m.map Prod.fst →
        (∀ v, parseStartToMsRaw dp np s = some v →
          ∃ w, startMs = some w ∧ w ≤ v) →
        (∀ s' ∈ processed, normalizeSlotIdRaw s' = normalizeSlotIdRaw s →
          ∀ v, parseStartToMsRaw dp np s' = some v →
            ∃ w, startMs = some w ∧ w ≤ v) →
        SlotInv dp np (processed ++ [s])
          (assocSet m (normalizeSlotIdRaw s) ⟨s, normalizeSlotIdRaw s, startMs⟩) := by
      intro startMs hsm hkeymem hminself hminold
      refine ⟨?_, ?_, ?_⟩
      · rw [keys_assocSet, if_pos hkeymem]
        exact hnd
      · intro s' hs' hne
        rw [keys_assocSet, if_pos hkeymem]
        rcases List.mem_append.mp hs' with h1 | h1
        · exact hcov s' h1 hne
        · simp only [List.mem_singleton] at h1
          rw [h1]
          exact hkeymem
      · intro p hp
        rcases mem_assocSet m _ _ p hnd hp with heq | ⟨hpm, hpne⟩
        · subst heq
          refine ⟨rfl, List.mem_append_right _ (by simp), rfl, hsid, hsm, ?_⟩
          intro s' hs' hnorm v hv
          rcases List.mem_append.mp hs' with h1 | h1
          · exact hminold s' h1 hnorm v hv
          · simp only [List.mem_singleton] at h1
            rw [h1] at hv
            exact hminself v hv
        · obtain ⟨g1, g2, g3, g4, g5, g6⟩ := hgood p hpm
          refine ⟨g1, List.mem_append_left _ g2, g3, g4, g5, ?_⟩
          intro s' hs' hnorm v hv
          rcases List.mem_append.mp hs' with h1 | h1
          · exact g6 s' h1 hnorm v hv
          · simp only [List.mem_singleton] at h1
            rw [h1] at hnorm
            exact absurd hnorm.symm hpne
    cases hfind : assocFind m (normalizeSlotIdRaw s) with
    | none =>
      have hkey : normalizeSlotIdRaw s ∉ m.map Prod.fst :=
        (assocFind_eq_none_iff ..).mp hfind
      simp only [slotMapUpdate]
      refine ⟨?_, ?_, ?_⟩
      · rw [keys_assocSet, if_neg hkey]
        exact hnd.append (List.nodup_singleton _)
          (by simpa [List.disjoint_singleton] using hkey)
      · intro s' hs' hne
        rw [keys_assocSet, if_neg hkey]
        rcases List.mem_append.mp hs' with h1 | h1
        · exact List.mem_append_left _ (hcov s' h1 hne)
        · simp only [List.mem_singleton] at h1
          rw [h1]
          exact List.mem_append_right _ (by simp)
      · intro p hp
        rcases mem_assocSet m _ _ p hnd hp with heq | ⟨hpm, hpne⟩
        · subst heq
          refine ⟨rfl, List.mem_append_right _ (by simp), rfl, hsid, rfl, ?_⟩
          intro s' hs' hnorm v hv
          rcases List.mem_append.mp hs' with h1 | h1
          · have hin : normalizeSlotIdRaw s' ∈ m.map Prod.fst :=
              hcov s' h1 (by rw [hnorm]; exact hsid)
            rw [hnorm] at hin
            exact absurd hin hkey
          · simp only [List.mem_singleton] at h1
            rw [h1] at hv
            exact ⟨v, by rw [hv], le_refl v⟩
        · obtain ⟨g1, g2, g3, g4, g5, g6⟩ := hgood p hpm
          refine ⟨g1, List.mem_append_left _ g2, g3, g4, g5, ?_⟩
          intro s' hs' hnorm v hv
          rcases List.mem_append.mp hs' with h1 | h1
          · exact g6 s' h1 hnorm v hv
          · simp only [List.mem_singleton] at h1
            rw [h1] at hnorm
            exact absurd hnorm.symm hpne
    | some existing =>
      have hexmem : (normalizeSlotIdRaw s, existing) ∈ m := assocFind_mem m _ _ hfind
      have hkeymem : normalizeSlotIdRaw s ∈ m.map Prod.fst :=
        List.mem_map.mpr ⟨_, hexmem, rfl⟩
      obtain ⟨e1, e2, e3, e4, e5, e6⟩ := hgood _ hexmem
      have hexuniq : ∀ p ∈ m, normalizeSlotIdRaw s = p.1 → p.2 = existing := by
        intro p hp hpk
        have hfp : assocFind m p.1 = some p.2 :=
          assocFind_of_mem_nodup m p.1 p.2 hnd (by simpa using hp)
        rw [← hpk, hfind] at hfp
        injection hfp with hfp
        exact hfp.symm
      simp only [slotMapUpdate]
      cases hparse : parseStartToMsRaw dp np s with
      | none =>
        have hm : SlotInv dp np (processed ++ [s]) m := by
          refine hkeep ?_ ?_
          · intro s' hs' hne
            rcases List.mem_append.mp hs' with h1 | h1
            · exact hcov s' h1 hne
            · simp only [List.mem_singleton] at h1
              rw [h1]
              exact hkeymem
          · intro v hv
            rw [hparse] at hv
            cases hv
        cases hex : existing.startMs <;> simp only [slotMapResolve] <;> exact hm
      | some sv =>
        have hv_inj : ∀ v, parseStartToMsRaw dp np s = some v → v = sv := by
          intro v hv
          rw [hparse] at hv
          injection hv with hv
          exact hv.symm
        cases hex : existing.startMs with
        | none =>
          simp only [slotMapResolve]
          refine hrepl (some sv) (by rw [hparse]) hkeymem ?_ ?_
          · intro v hv
            exact ⟨sv, rfl, le_of_eq (hv_inj v hv).symm⟩
          · intro s' h1 hnorm v hv
            obtain ⟨w, hw, _⟩ := e6 s' h1 hnorm v hv
            rw [hex] at hw
            cases hw
        | some exv =>
          simp only [slotMapResolve]
          by_cases hlt : sv < exv
          · rw [if_pos hlt]
            refine hrepl (some sv) (by rw [hparse]) hkeymem ?_ ?_
            · intro v hv
              exact ⟨sv, rfl, le_of_eq (hv_inj v hv).symm⟩
            · intro s' h1 hnorm v hv
              obtain ⟨w, hw, hwv⟩ := e6 s' h1 hnorm v hv
              rw [hex] at hw
              injection hw with hw
              refine ⟨sv, rfl, ?_⟩
              subst hw
              exact le_of_lt (lt_of_lt_of_le hlt hwv)
          · rw [if_neg hlt]
            refine hkeep ?_ ?_
            · intro s' hs' hne
              rcases List.mem_append.mp hs' with h1 | h1
              · exact hcov s' h1 hne
              · simp only [List.mem_singleton] at h1
                rw [h1]
                exact hkeymem
            · intro v hv p hp hpk
              have hpe : p.2 = existing := hexuniq p hp hpk
              have := hv_inj v hv
              subst this
              refine ⟨exv, ?_, not_lt.mp hlt⟩
              rw [hpe, hex]

/-- The dedupe invariant holds of the full `slotMap` fold. -/
theorem slotMap_inv (dp np : String → Option Int) (rawSlots : List RawSlot) :
    SlotInv dp np rawSlots (slotMap dp np rawSlots) := by
  have gen : ∀ (l : List RawSlot) (processed : List RawSlot)
      (m : List (String × NormSlot)), SlotInv dp np processed m →
      SlotInv dp np (processed ++ l) (l.foldl (slotMapStep dp np) m) := by
    intro l
    induction l with
    | nil => intro processed m h; simpa using h
    | cons s tl ih =>
      intro processed m h
      have h1 := slotInv_step dp np processed m s h
      have h2 := ih (processed ++ [s]) _ h1
      simpa using h2
  have base : SlotInv dp np [] [] := by
    refine ⟨List.nodup_nil, ?_, ?_⟩ <;> simp
  simpa using gen rawSlots [] [] base


/-- C6 (confirmed): the `slotMap` dedupe yields pairwise-distinct
normalized ids covering every raw slot with a non-empty normalized id,
and each entry stores one of the raw slots of its id class together
with its parsed start, which is less than or equal to every parseable
start among the class's duplicates (so duplicates disagreeing on start
keep the earliest parseable one). -/
theorem c6_dedupe_earliest (dp np : String → Option Int) (rawSlots : List RawSlot) :
    ((slotMap dp np rawSlots).map Prod.fst).Nodup ∧
    (∀ s ∈ rawSlots, normalizeSlotIdRaw s ≠ "" →
      normalizeSlotIdRaw s ∈ (slotMap dp np rawSlots).map Prod.fst) ∧
    (∀ p ∈ slotMap dp np rawSlots,
      p.2.id = p.1 ∧ p.2.raw ∈ rawSlots ∧ normalizeSlotIdRaw p.2.raw = p.1 ∧
      p.2.startMs = parseStartToMsRaw dp np p.2.raw ∧
      (∀ s ∈ rawSlots, normalizeSlotIdRaw s = p.1 →
        ∀ v, parseStartToMsRaw dp np s = some v →
          ∃ w, p.2.startMs = some w ∧ w ≤ v)) := by
  obtain ⟨h1, h2, h3⟩ := slotMap_inv dp np rawSlots
  refine ⟨h1, h2, ?_⟩
  intro p hp
  obtain ⟨g1, g2, g3, _, g5, g6⟩ := h3 p hp
  exact ⟨g1, g2, g3, g5, g6⟩

/-- C6 witness: of two raw slots sharing id `X` with starts 5000 s and
2000 s, the map keeps the 2000-second one, and its stored start is at
most the other duplicate's parsed start. -/
theorem c6_dedupe_earliest_witness :
    ("X", nsBC6) ∈ slotMap dpC6 npC6 slotsC6 ∧
    sAC6 ∈ slotsC6 ∧ normalizeSlotIdRaw sAC6 = "X" ∧
    parseStartToMsRaw dpC6 npC6 sAC6 = some 5000000 ∧
    (∃ w, ("X", nsBC6).2.startMs = some w ∧ w ≤ 5000000) :=
  ⟨by decide, by decide, by decide, by decide,
   ((c6_dedupe_earliest dpC6 npC6 slotsC6).2.2 ("X", nsBC6) (by decide)).2.2.2.2
     sAC6 (by decide) (by decide) 5000000 (by decide)⟩

/-- C7 (confirmed): every slot in the `futureSlots` output has a
parseable start strictly greater than `nowMs` and an id not in the
`bookedSlotIds` set (which gathers matches' `slotId`s plus the raw and
epoch-ms renderings of their `scheduledTime`s); a slot whose start did
not parse is never in the output. -/
theorem c7_future_unbooked (dp np : String → Option Int) (isoOf : Int → String)
    (slots : List NormSlot) (e : GEvent) (nowMs : Int) :
    (∀ s ∈ futureSlots isoOf slots (bookedSlotIds dp np e) nowMs,
      ∃ v, s.startMs = some v ∧ nowMs < v ∧ s.id ∉ bookedSlotIds dp np e) ∧
    (∀ s ∈ slots, s.startMs = none →
      s ∉ futureSlots isoOf slots (bookedSlotIds dp np e) nowMs) := by
  constructor
  · intro s hs
    have hp := (List.mem_filter.mp hs).2
    unfold futureKeep at hp
    split at hp
    · exact Bool.noConfusion hp
    · rename_i v hsm
      refine ⟨v, hsm, ?_, ?_⟩
      · split at hp
        · exact Bool.noConfusion hp
        · split at hp
          · exact Bool.noConfusion hp
          · rename_i hle
            exact lt_of_not_le hle
      · split at hp
        · exact Bool.noConfusion hp
        · split at hp
          · exact Bool.noConfusion hp
          · split at hp
            · exact Bool.noConfusion hp
            · split at hp
              · exact Bool.noConfusion hp
              · rename_i hcont
                simpa using hcont
  · intro s _ hnone hmem
    have hp := (List.mem_filter.mp hmem).2
    unfold futureKeep at hp
    split at hp
    · exact Bool.noConfusion hp
    · rename_i v hsm
      rw [hnone] at hsm
      cases hsm

/-- C7 witness: with an empty booked set and `nowMs = 50`, the
parseable slot at 100 ms is kept and satisfies the output guarantees;
the unparseable slot is excluded. -/
theorem c7_future_unbooked_witness :
    nsGoodC7 ∈ futureSlots isoC7 slotsC7 (bookedSlotIds dpC7 npC7 evC7) 50 ∧
    (∃ v, nsGoodC7.startMs = some v ∧ 50 < v ∧
      nsGoodC7.id ∉ bookedSlotIds dpC7 npC7 evC7) ∧
    (nsBadC7.startMs = none →
      nsBadC7 ∉ futureSlots isoC7 slotsC7 (bookedSlotIds dpC7 npC7 evC7) 50) :=
  ⟨by decide,
   (c7_future_unbooked dpC7 npC7 isoC7 slotsC7 evC7 50).1 nsGoodC7 (by decide),
   (c7_future_unbooked dpC7 npC7 isoC7 slotsC7 evC7 50).2 nsBadC7 (by decide)⟩
